import Mathlib

/-!
Shallow embedding of bgs.py (BoardGameGeek board-game suggestion tool).

The embedding mirrors the core of the source: the Candidate Filter and the
rating pipeline of Master.rate_our_games, the standardize helper, and the
expansion graph / re-ranking logic of Master.show_your_decision (including
its inner build_exp_graph).  Python dictionaries are modelled as
insertion-ordered association lists, Python sets as duplicate-free lists in
a canonical (collection) order, Python float arithmetic as exact real
arithmetic, and fallible operations (KeyError on direct dict indexing,
ZeroDivisionError, ValueError from max over an empty list) as Option,
where none models the raised exception.  A Game field that Python leaves
as None is modelled with Option; Game.expansion_of, which the source only
iterates when truthy, is modelled as a plain list with the empty list
standing for Python None / empty set.
-/

namespace BGS

/-- Mirror of class GameStats (bgs.py lines 94-104): per-player statistics
for one game.  rating is None or a float in the source; qTruthy below
reproduces the truthiness test the scorer applies to it. -/
structure GameStats where
  owned : Bool := false
  rating : Option ℚ := none
  play_count : Nat := 0
  want_to_play : Bool := false
deriving DecidableEq

/-- Mirror of class Player (bgs.py lines 107-116): games_stats models the
game_id keyed dict. -/
structure Player where
  username : String
  is_guest : Bool := false
  games_stats : List (Nat × GameStats) := []
deriving DecidableEq

/-- Mirror of class Game (bgs.py lines 274-288).  suggested_players maps a
player count to vote counts keyed by category name; expansion_of is the
set of base-game ids ([] models Python None, which the source never
iterates because is_an_expansion is only set together with a non-empty
expansion_of). -/
structure Game where
  game_id : Nat
  player_min : Option Nat := none
  player_max : Option Nat := none
  playing_time : Option Nat := none
  suggested_players : Option (List (Nat × List (String × Nat))) := none
  is_an_expansion : Bool := false
  expansion_of : List Nat := []
  average_weight : Option ℚ := none
  average_rating : Option ℚ := none
deriving DecidableEq

/-- The state of class Master that rate_our_games and show_your_decision
read: the game collection dict, the collection-owner group and the game
group (bgs.py lines 473-484). -/
structure Master where
  collection : List (Nat × Game)
  collection_group : List Player
  game_group : List Player
deriving DecidableEq

/-- Python truthiness of an optional float: None and 0.0 are falsy. -/
def qTruthy : Option ℚ → Bool
  | none => false
  | some x => decide (x ≠ 0)

/-- Dict lookup player.games_stats[game_id] guarded by a membership check. -/
def statLookup (p : Player) (gid : Nat) : Option GameStats :=
  List.lookup gid p.games_stats

/-- bgs.py line 556: whether any collection-group player owns the game. -/
def ownedByAny (grp : List Player) (gid : Nat) : Bool :=
  grp.any (fun p =>
    match statLookup p gid with
    | some s => s.owned
    | none => false)

/-- bgs.py lines 555-557: the available collection, i.e. games of the
collection owned by at least one collection-group player (a Python set,
modelled in collection order). -/
def availableCollection (m : Master) : List Nat :=
  (m.collection.map Prod.fst).filter (ownedByAny m.collection_group)

/-- Dict lookup self.__collection[game_id]. -/
def gameOf (m : Master) (gid : Nat) : Option Game :=
  List.lookup gid m.collection

/-- len(self.__game_group), the group size N (bgs.py line 564). -/
def numberOfPlayers (m : Master) : Nat := m.game_group.length

/-- bgs.py lines 568-578: the playability test applied to each available
game: if both player bounds are set, N must lie in range(min, max + 1);
if the game is an expansion, at least one base must be available. -/
def playableCheck (N : Nat) (g : Game) (avail : List Nat) : Bool :=
  (match g.player_min, g.player_max with
   | some mn, some mx => decide (mn ≤ N) && decide (N ≤ mx)
   | _, _ => true) &&
  (if g.is_an_expansion then g.expansion_of.any (fun b => avail.contains b)
   else true)

/-- bgs.py lines 563-578: the possible collection (candidate set).  The
collection lookup cannot fail because available ids are collection keys. -/
def possibleCollection (m : Master) : List Nat :=
  (availableCollection m).filter (fun gid =>
    match gameOf m gid with
    | some g => playableCheck (numberOfPlayers m) g (availableCollection m)
    | none => false)

/-- bgs.py lines 82-89, the Python round(value, 4) step: round to the
nearest integer multiple of 1/10000, ties to even (Python banker
rounding), exact real semantics. -/
noncomputable def roundHalfEven (x : ℝ) : ℤ :=
  if Int.fract x < 1 / 2 then Int.floor x
  else if 1 / 2 < Int.fract x then Int.floor x + 1
  else if Even (Int.floor x) then Int.floor x else Int.floor x + 1

/-- round(value, 4) from standardize (bgs.py line 89). -/
noncomputable def pyRound4 (x : ℝ) : ℝ :=
  (roundHalfEven (x * 10000) : ℝ) / 10000

/-- bgs.py lines 82-89: standardize, max(0.0, min(1.0, round(value, 4))). -/
noncomputable def standardize (x : ℝ) : ℝ :=
  max 0 (min 1 (pyRound4 x))

/-- bgs.py lines 599-613: the playing-time sub-score pair [raw, weight].
Starts at [0, 0]; if the requested weight is truthy it becomes the
[0.5, 0.4] default; when both the game playing_time and the requested
playing_time are not None the curve branch overwrites it. -/
noncomputable def scorePlayingTime (target : Option Nat) (weightT : Option ℚ)
    (g : Game) : ℝ × ℝ :=
  let dflt : ℝ × ℝ := if qTruthy weightT then (0.5, 0.4) else (0, 0)
  match g.playing_time, target with
  | some pt, some t =>
    let delta : ℕ := ((t : ℤ) - (pt : ℤ)).natAbs
    if t ≤ delta then (0, 0.4)
    else (1 - ((2 : ℝ) ^ ((delta : ℝ) * (3 / (t : ℝ)) + 2) - 4) / 28, 0.4)
  | _, _ => dflt

/-- bgs.py lines 615-629: the weight sub-score pair.  The curve branch
fires when average_weight and the requested weight are both not None
(truthiness is only used for the default). -/
noncomputable def scoreWeight (weightT : Option ℚ) (g : Game) : ℝ × ℝ :=
  let dflt : ℝ × ℝ := if qTruthy weightT then (0.5, 0.4) else (0, 0)
  match g.average_weight, weightT with
  | some aw, some w =>
    let delta : ℝ := |(w : ℝ) - (aw : ℝ)|
    if 2.5 ≤ delta then (0, 0.4)
    else (1 - ((2 : ℝ) ^ (delta * (2 / 2.5) + 2) - 4) / 16, 0.4)
  | _, _ => dflt

/-- sum(suggested_values.values()) (bgs.py line 637). -/
def sumVotes (sv : List (String × Nat)) : Nat :=
  (sv.map Prod.snd).sum

/-- bgs.py lines 631-643: the suggested-player-count sub-score pair.
Default [0.6, 0.2]; when the game has vote data for the exact player
count the source indexes the vote dict directly with the three category
names (KeyError when one is missing) and divides by the vote total
(ZeroDivisionError when it is 0); both exceptions are modelled as none.
The raw value adds 0.5 per Not Recommended vote share, then Best and
Recommended shares, then subtracts the Not Recommended term again,
exactly as lines 638-641 do, and clamps at 0. -/
noncomputable def scoreSuggested (N : Nat) (g : Game) : Option (ℝ × ℝ) :=
  let dflt : ℝ × ℝ := (0.6, 0.2)
  match g.suggested_players with
  | none => some dflt
  | some sp =>
    if sp = [] then some dflt
    else
      match List.lookup N sp with
      | none => some dflt
      | some sv =>
        if sv = [] then some dflt
        else
          match List.lookup "Not Recommended" sv, List.lookup "Best" sv,
              List.lookup "Recommended" sv with
          | some nr, some b, some r =>
            let total : ℕ := sumVotes sv
            if total = 0 then none
            else
              some (max 0 ((((nr : ℝ) * 0.5 / (total : ℝ)
                + (b : ℝ) * 1.0 / (total : ℝ))
                + (r : ℝ) * 0.5 / (total : ℝ))
                - (nr : ℝ) * 0.5 / (total : ℝ)), 0.2)
          | _, _, _ => none

/-- bgs.py lines 649-654: the initial (players_score, divide_by)
accumulator: (average_rating * 0.5, 0.5) when the game average rating is
truthy, (0, 0) otherwise. -/
noncomputable def psInit (g : Game) : ℝ × ℝ :=
  if qTruthy g.average_rating then ((g.average_rating.getD 0 : ℝ) * 0.5, 0.5)
  else (0, 0)

/-- bgs.py lines 656-681: one iteration of the player-taste loop.  Guests
and players without stats for the game are skipped; a player with stats
but neither a truthy rating nor the want_to_play flag falls into the
final continue, leaving both accumulators unchanged. -/
noncomputable def playersStep (gid : Nat) (acc : ℝ × ℝ) (p : Player) : ℝ × ℝ :=
  if p.is_guest then acc
  else
    match statLookup p gid with
    | none => acc
    | some stats =>
      let r : ℝ := ((stats.rating.getD 0 : ℚ) : ℝ)
      if stats.want_to_play then
        if qTruthy stats.rating then (acc.1 + 0.8 + r * 0.2, acc.2 + 1)
        else (acc.1 + 0.9, acc.2 + 1)
      else
        if qTruthy stats.rating then
          if stats.play_count ≠ 0 then
            (acc.1 + Real.exp ((stats.play_count : ℝ)
              / (2 : ℝ) ^ (r * 10) * (-1)) * r, acc.2 + 1)
          else (acc.1 + r * 0.8, acc.2 + 1)
        else acc

/-- bgs.py lines 647-689: the player-taste sub-score pair: the loop above
folded over the game group, then [accumulated / divide_by, 0.4] when the
denominator is positive and the [0.5, 0.4] default otherwise. -/
noncomputable def playersScorePair (m : Master) (gid : Nat) (g : Game) : ℝ × ℝ :=
  let acc := m.game_group.foldl (playersStep gid) (psInit g)
  if 0 < acc.2 then (acc.1 / acc.2, 0.4) else (0.5, 0.4)

/-- bgs.py lines 593-697: the final score of one candidate game: the four
sub-score pairs combined as a weighted average, passed through
standardize; 0.0 when the weight sum is not positive.  none models an
exception escaping from the suggested-player computation. -/
noncomputable def rateGame (m : Master) (target : Option Nat)
    (weightT : Option ℚ) (gid : Nat) : Option ℝ :=
  match gameOf m gid with
  | none => none
  | some g =>
    let pt := scorePlayingTime target weightT g
    let wt := scoreWeight weightT g
    match scoreSuggested (numberOfPlayers m) g with
    | none => none
    | some sv =>
      let ps := playersScorePair m gid g
      let wsum := pt.2 + wt.2 + sv.2 + ps.2
      if 0 < wsum then
        some (standardize
          ((pt.1 * pt.2 + wt.1 * wt.2 + sv.1 * sv.2 + ps.1 * ps.2) / wsum))
      else some 0

/-- The evaluations dict built game by game over a list of candidate ids,
in order; an exception while rating any game aborts the whole run. -/
noncomputable def evalsList (m : Master) (target : Option Nat)
    (weightT : Option ℚ) : List Nat → Option (List (Nat × ℝ))
  | [] => some []
  | gid :: rest =>
    match rateGame m target weightT gid, evalsList m target weightT rest with
    | some s, some l => some ((gid, s) :: l)
    | _, _ => none

/-- bgs.py rate_our_games: the evaluations map over the candidate set. -/
noncomputable def rateOurGames (m : Master) (target : Option Nat)
    (weightT : Option ℚ) : Option (List (Nat × ℝ)) :=
  evalsList m target weightT (possibleCollection m)

/-- networkx add_node: node ids are a set; insertion order kept, duplicate
adds ignored (re-adding writes the same attributes). -/
def addNode (ns : List Nat) (n : Nat) : List Nat :=
  if ns.contains n then ns else ns ++ [n]

/-- networkx add_edge with the same dedup convention. -/
def addEdge (es : List (Nat × Nat)) (e : Nat × Nat) : List (Nat × Nat) :=
  if es.contains e then es else es ++ [e]

/-- bgs.py lines 700-710: the node and edge lists of the dependency graph:
every possible game with a truthy expansion_of becomes a node, and for
each of its available bases the base becomes a node and base -> game an
edge. -/
def graphData (m : Master) : List Nat × List (Nat × Nat) :=
  (possibleCollection m).foldl
    (fun (acc : List Nat × List (Nat × Nat)) gid =>
      match gameOf m gid with
      | none => acc
      | some game =>
        if game.expansion_of = [] then acc
        else
          game.expansion_of.foldl
            (fun (acc2 : List Nat × List (Nat × Nat)) base_id =>
              if (availableCollection m).contains base_id then
                (addNode acc2.1 base_id, addEdge acc2.2 (base_id, gid))
              else acc2)
            (addNode acc.1 gid, acc.2))
    ([], [])

/-- The isBase node attribute (bgs.py lines 705 and 709): the negation of
the is_an_expansion flag of the game stored under the node id. -/
def nodeIsBase (m : Master) (n : Nat) : Bool :=
  match gameOf m n with
  | some g => !g.is_an_expansion
  | none => false

/-- networkx all_simple_paths as a fuelled DFS: every duplicate-free path
cur -> ... -> target; fuel bounds the depth (the number of graph nodes
suffices, a simple path never being longer). -/
def simplePathsFuel (edges : List (Nat × Nat)) :
    Nat → Nat → Nat → List Nat → List (List Nat)
  | 0, cur, target, _ => if cur = target then [[cur]] else []
  | fuel + 1, cur, target, visited =>
    if cur = target then [[cur]]
    else
      (((edges.filterMap (fun e => if e.1 = cur then some e.2 else none)).filter
          (fun nxt => !(cur :: visited).contains nxt)).flatMap
        (fun nxt =>
          (simplePathsFuel edges fuel nxt target (cur :: visited)).map
            (fun p => cur :: p)))

/-- The per-node player_max values collected along a path (None skipped),
bgs.py line 723. -/
def pathPlayerMax (m : Master) (path : List Nat) : List Nat :=
  path.filterMap (fun n => (gameOf m n).bind Game.player_max)

/-- The per-node player_min values collected along a path (None skipped),
bgs.py line 724 (note the source takes the max of these too). -/
def pathPlayerMin (m : Master) (path : List Nat) : List Nat :=
  path.filterMap (fun n => (gameOf m n).bind Game.player_min)

/-- bgs.py lines 722-727 for one path: p_max and p_min are Python max over
the collected values, a ValueError (modelled none) when either list is
empty; the path counts as feasible when both are truthy and N lies in
range(p_min, p_max + 1). -/
def pathFeasible (m : Master) (N : Nat) (path : List Nat) : Option Bool :=
  match (pathPlayerMax m path).max?, (pathPlayerMin m path).max? with
  | some pmax, some pmin =>
    some (decide (pmax ≠ 0) && decide (pmin ≠ 0)
      && decide (pmin ≤ N) && decide (N ≤ pmax))
  | _, _ => none

/-- The feasible subset of a path list, aborting on the first ValueError. -/
def feasiblePaths (m : Master) (N : Nat) : List (List Nat) → Option (List (List Nat))
  | [] => some []
  | p :: ps =>
    match pathFeasible m N p with
    | none => none
    | some b =>
      match feasiblePaths m N ps with
      | none => none
      | some rest => some (if b then p :: rest else rest)

/-- bgs.py lines 712-727 for one base node: all simple paths from the base
to every non-base node, filtered to the feasible ones.  has_path followed
by all_simple_paths is the same as enumerating the (possibly empty) simple
path list directly. -/
def baseToExpEntry (m : Master) (N : Nat) (edges : List (Nat × Nat))
    (nodes : List Nat) (node : Nat) : Option (List (List Nat)) :=
  feasiblePaths m N
    ((nodes.filter (fun c => !nodeIsBase m c)).flatMap
      (fun child => simplePathsFuel edges nodes.length node child []))

/-- The base_to_exp dict assembled base by base. -/
def bteLoop (m : Master) (N : Nat) (edges : List (Nat × Nat))
    (nodes : List Nat) : List Nat → Option (List (Nat × List (List Nat)))
  | [] => some []
  | b :: bs =>
    match baseToExpEntry m N edges nodes b, bteLoop m N edges nodes bs with
    | some e, some rest => some ((b, e) :: rest)
    | _, _ => none

/-- bgs.py lines 700-729, build_exp_graph: the base_to_exp dict (one entry
per isBase node) and the node list. -/
def buildExpGraph (m : Master) (N : Nat) :
    Option (List (Nat × List (List Nat)) × List Nat) :=
  let nodes := (graphData m).1
  let edges := (graphData m).2
  match bteLoop m N edges nodes (nodes.filter (nodeIsBase m)) with
  | some bte => some (bte, nodes)
  | none => none

/-- The evaluation scores found along one path (games without an
evaluation skipped), bgs.py line 742. -/
def pathScores (evals : List (Nat × ℚ)) (path : List Nat) : List ℚ :=
  path.filterMap (fun gid => List.lookup gid evals)

/-- bgs.py lines 740-744: the display score of a base with feasible paths:
starting from evaluations.get(base, 0.0), fold Python max over the scores
found along every feasible path. -/
def displayScore (evals : List (Nat × ℚ)) (base : Nat)
    (exps : List (List Nat)) : ℚ :=
  exps.foldl (fun acc p => (pathScores evals p).foldl max acc)
    ((List.lookup base evals).getD 0)

/-- bgs.py lines 734-744: the max_scores dict, one entry per base of the
base_to_exp dict whose feasible path list is non-empty. -/
def maxScores (evals : List (Nat × ℚ)) (bte : List (Nat × List (List Nat))) :
    List (Nat × ℚ) :=
  bte.filterMap (fun be =>
    if be.2 = [] then none else some (be.1, displayScore evals be.1 be.2))

/-- Python dict assignment d[k] = v: overwrite in place when the key
exists, append otherwise. -/
def dictSet (l : List (Nat × ℚ)) (k : Nat) (v : ℚ) : List (Nat × ℚ) :=
  if (l.map Prod.fst).contains k then
    l.map (fun p => if p.1 = k then (k, v) else p)
  else l ++ [(k, v)]

/-- Python dict.pop(k) with no default: remove the entry, KeyError
(modelled none) when the key is absent. -/
def dictPop (l : List (Nat × ℚ)) (k : Nat) : Option (List (Nat × ℚ)) :=
  if (l.map Prod.fst).contains k then
    some (l.eraseP (fun p => p.1 == k))
  else none

/-- bgs.py lines 746-751: the new_eval loop over the graph nodes: a node
that is not a base_to_exp key is popped from the evaluation dict; a
base_to_exp key is overwritten with its max_scores entry, a KeyError
(modelled none) when max_scores has none. -/
def newEvalLoop (bte : List (Nat × List (List Nat))) (msc : List (Nat × ℚ)) :
    List Nat → List (Nat × ℚ) → Option (List (Nat × ℚ))
  | [], acc => some acc
  | n :: rest, acc =>
    match List.lookup n bte with
    | some _ =>
      match List.lookup n msc with
      | some v => newEvalLoop bte msc rest (dictSet acc n v)
      | none => none
    | none =>
      match dictPop acc n with
      | some acc2 => newEvalLoop bte msc rest acc2
      | none => none

/-- Stable descending insertion by score: an element moves past every
earlier element whose score is at least its own, exactly the order Python
sorted(key=itemgetter(1), reverse=True) produces. -/
def insertDesc (x : Nat × ℚ) : List (Nat × ℚ) → List (Nat × ℚ)
  | [] => [x]
  | y :: ys => if x.2 ≤ y.2 then y :: insertDesc x ys else x :: y :: ys

/-- sorted(new_eval.items(), key=itemgetter(1), reverse=True). -/
def sortDesc (l : List (Nat × ℚ)) : List (Nat × ℚ) :=
  l.foldr insertDesc []

/-- bgs.py lines 755-756: truncation guarded by the truthiness of limit
(None and 0 leave the list whole). -/
def truncate (limit : Option Nat) (l : List (Nat × ℚ)) : List (Nat × ℚ) :=
  match limit with
  | some k => if k = 0 then l else l.take k
  | none => l

/-- bgs.py lines 733-756, the non-separate-expansions re-ranking:
build the graph, rewrite the evaluation dict through the new_eval loop,
sort descending by score and truncate.  none models any exception raised
on the way (ValueError inside build_exp_graph, KeyError in the loop). -/
def reRank (m : Master) (evals : List (Nat × ℚ)) (limit : Option Nat) :
    Option (List (Nat × ℚ)) :=
  match buildExpGraph m (numberOfPlayers m) with
  | none => none
  | some (bte, nodes) =>
    match newEvalLoop bte (maxScores evals bte) nodes evals with
    | none => none
    | some ne => some (truncate limit (sortDesc ne))

/-! ## Concrete fixtures -/

/-- A collection owner owning games 5 and 6. -/
def ownerA : Player :=
  { username := "o", games_stats := [(5, { owned := true }), (6, { owned := true })] }

/-- A base game with bounds [1, 4]. -/
def game5 : Game := { game_id := 5, player_min := some 1, player_max := some 4 }

/-- An expansion of game 5 without player bounds. -/
def game6 : Game := { game_id := 6, is_an_expansion := true, expansion_of := [5] }

/-- Fixture for the candidate filter: a base game 5 with bounds [1, 4] and
an expansion 6 of it without bounds, two guests at the table. -/
def mFilter : Master :=
  { collection := [(5, game5), (6, game6)],
    collection_group := [ownerA],
    game_group :=
      [{ username := "g1", is_guest := true },
       { username := "g2", is_guest := true }] }

/-! ## Claim C3 -/

/-- Claim C3: the candidate set is a subset of the available set; every
candidate with both player bounds set brackets the group size; every
candidate expansion has at least one base in the available set. -/
theorem claim_C3 (m : Master) :
    (∀ gid ∈ possibleCollection m, gid ∈ availableCollection m) ∧
    (∀ gid ∈ possibleCollection m, ∀ g, gameOf m gid = some g →
      (∀ mn mx, g.player_min = some mn → g.player_max = some mx →
        mn ≤ numberOfPlayers m ∧ numberOfPlayers m ≤ mx) ∧
      (g.is_an_expansion = true →
        ∃ b ∈ g.expansion_of, b ∈ availableCollection m)) := by
  constructor
  · intro gid h
    exact (List.mem_filter.mp h).1
  · intro gid h g hg
    have hp := (List.mem_filter.mp h).2
    rw [hg] at hp
    have hp2 := (Bool.and_eq_true _ _).mp hp
    constructor
    · intro mn mx h1 h2
      have := hp2.1
      rw [h1, h2] at this
      have h3 := (Bool.and_eq_true _ _).mp this
      exact ⟨of_decide_eq_true h3.1, of_decide_eq_true h3.2⟩
    · intro he
      have := hp2.2
      rw [he] at this
      simp only [if_true] at this
      obtain ⟨b, hb, hbc⟩ := List.any_eq_true.mp this
      exact ⟨b, hb, by simpa using hbc⟩

/-- Witness for claim C3 at the concrete filter fixture. -/
theorem claim_C3_witness :
    (6 ∈ possibleCollection mFilter ∧ 6 ∈ availableCollection mFilter) ∧
    (gameOf mFilter 6 = some game6 ∧
      ∃ b ∈ [5], b ∈ availableCollection mFilter) := by
  refine ⟨⟨by decide, (claim_C3 mFilter).1 6 (by decide)⟩, ⟨by decide, ?_⟩⟩
  exact ((claim_C3 mFilter).2 6 (by decide) game6 (by decide)).2 rfl

/-! ## Claim C4 -/

/-- Claim C4 counterexample: a game without playing_time data scored with
both a target time and a target weight receives the [0.5, 0.4] neutral
default, not the claimed [0, 0]. -/
theorem claim_C4_counterexample :
    scorePlayingTime (some 60) (some 3) { game_id := 11 } = (0.5, 0.4) ∧
    ((0.5 : ℝ), (0.4 : ℝ)) ≠ ((0 : ℝ), (0 : ℝ)) := by
  constructor
  · simp [scorePlayingTime, qTruthy]
  · intro h
    have := congrArg Prod.fst h
    norm_num at this

/-- Claim C4 as amended: for a candidate without playing_time data the
playing-time sub-score is the [0.5, 0.4] neutral default whenever the
requested weight is truthy, regardless of the requested time, and [0, 0]
otherwise. -/
theorem claim_C4 (target : Option Nat) (weightT : Option ℚ) (g : Game)
    (h : g.playing_time = none) :
    scorePlayingTime target weightT g =
      if qTruthy weightT then ((0.5 : ℝ), (0.4 : ℝ)) else (0, 0) := by
  cases target <;> simp [scorePlayingTime, h]

/-- Witness for claim C4 at a concrete game without playing_time data. -/
theorem claim_C4_witness :
    ({ game_id := 12 } : Game).playing_time = none ∧
    scorePlayingTime (some 30) none { game_id := 12 } = (0, 0) :=
  ⟨rfl, (claim_C4 (some 30) none _ rfl).trans (by simp [qTruthy])⟩

/-! ## Claim C7 -/

/-- A game with playing_time 60. -/
def game60 : Game := { game_id := 13, playing_time := some 60 }

/-- Helper: the curve value at target 120, playing_time 60. -/
lemma scorePT_120_60 :
    scorePlayingTime (some 120) none game60 =
      (1 - ((2 : ℝ) ^ ((7 : ℝ) / 2) - 4) / 28, 0.4) := by
  have h : ((((120 : ℤ) - (60 : ℤ)).natAbs : ℕ) : ℝ) * (3 / ((120 : ℕ) : ℝ)) + 2
      = (7 : ℝ) / 2 := by norm_num
  simp only [scorePlayingTime, game60]
  norm_num

/-- Helper: 2 to the real power 7/2 lies strictly between 4 and 16. -/
lemma rpow_seven_halves_lt :
    (4 : ℝ) < (2 : ℝ) ^ ((7 : ℝ) / 2) ∧ (2 : ℝ) ^ ((7 : ℝ) / 2) < 16 := by
  have h4 : (2 : ℝ) ^ (((2 : ℕ) : ℝ)) = 4 := by
    rw [Real.rpow_natCast]; norm_num
  have h16 : (2 : ℝ) ^ (((4 : ℕ) : ℝ)) = 16 := by
    rw [Real.rpow_natCast]; norm_num
  constructor
  · rw [← h4]
    exact (Real.rpow_lt_rpow_left_iff (by norm_num)).mpr (by norm_num)
  · rw [← h16]
    exact (Real.rpow_lt_rpow_left_iff (by norm_num)).mpr (by norm_num)

/-- Claim C7 counterexample: at target time 120 and playing_time 60 the
raw playing-time score is not 0 (delta is 60, max_delta is 120, so the
curve branch fires and yields about 0.739). -/
theorem claim_C7_counterexample :
    (scorePlayingTime (some 120) none game60).1 ≠ 0 := by
  rw [scorePT_120_60]
  have h := rpow_seven_halves_lt
  have : (1 : ℝ) - ((2 : ℝ) ^ ((7 : ℝ) / 2) - 4) / 28 > 0 := by
    have h2 := h.2
    nlinarith
  simp only [gt_iff_lt] at this
  exact ne_of_gt this

/-- Claim C7 as amended: at target 60 and playing_time 60 the playing-time
sub-score is exactly [1, 0.4]; at target 120 and playing_time 60 the raw
value equals 1 - (2 to the 7/2 minus 4)/28, which is strictly positive
(about 0.739), not 0. -/
theorem claim_C7 :
    scorePlayingTime (some 60) none game60 = (1, 0.4) ∧
    scorePlayingTime (some 120) none game60 =
      (1 - ((2 : ℝ) ^ ((7 : ℝ) / 2) - 4) / 28, 0.4) ∧
    0 < (scorePlayingTime (some 120) none game60).1 := by
  refine ⟨?_, scorePT_120_60, ?_⟩
  · simp only [scorePlayingTime, game60]
    norm_num
  · rw [scorePT_120_60]
    have h := rpow_seven_halves_lt
    have h2 := h.2
    nlinarith

/-! ## Claim C1 -/

/-- Vote data at player count 4: 5 Best, 0 Recommended, 5 Not Recommended. -/
def votesC1 : List (String × Nat) :=
  [("Best", 5), ("Recommended", 0), ("Not Recommended", 5)]

/-- A game whose suggested-player poll at count 4 is votesC1. -/
def gameC1 : Game := { game_id := 21, suggested_players := some [(4, votesC1)] }

/-- Shared evaluation lemma for the suggested-player sub-score: the raw
value simplifies to max(0, Best/total + 0.5 Recommended/total) because
the Not Recommended term is added and subtracted again. -/
lemma scoreSuggested_raw (N : Nat) (g : Game)
    (sp : List (Nat × List (String × Nat)))
    (sv : List (String × Nat)) (nr b r : Nat)
    (hsp : g.suggested_players = some sp) (hspne : sp ≠ [])
    (hsv : List.lookup N sp = some sv) (hsvne : sv ≠ [])
    (hnr : List.lookup "Not Recommended" sv = some nr)
    (hb : List.lookup "Best" sv = some b)
    (hr : List.lookup "Recommended" sv = some r)
    (ht : sumVotes sv ≠ 0) :
    scoreSuggested N g =
      some (max 0 ((b : ℝ) * 1.0 / (sumVotes sv : ℝ)
        + (r : ℝ) * 0.5 / (sumVotes sv : ℝ)), 0.2) := by
  simp only [scoreSuggested, hsp, hsv, hnr, hb, hr, if_neg hspne, if_neg hsvne,
    if_neg ht]
  congr 2
  ring_nf

/-- Claim C1 counterexample: with 5 Best, 0 Recommended and 5 Not
Recommended votes out of 10 the code yields raw 0.5, while the claimed
formula Best/total + 0.5 Recommended/total - 0.5 NotRecommended/total
clamped at 0 yields 0.25. -/
theorem claim_C1_counterexample :
    scoreSuggested 4 gameC1 = some (0.5, 0.2) ∧
    max (0 : ℝ) ((5 : ℝ) * 1.0 / 10 + (0 : ℝ) * 0.5 / 10 - (5 : ℝ) * 0.5 / 10)
      = 0.25 ∧
    (0.5 : ℝ) ≠ 0.25 := by
  have h := scoreSuggested_raw 4 gameC1 [(4, votesC1)] votesC1 5 5 0
    rfl (by decide) rfl (by decide) rfl rfl rfl (by decide)
  have hs : sumVotes votesC1 = 10 := rfl
  rw [hs] at h
  refine ⟨?_, ?_, by norm_num⟩
  · rw [h]
    norm_num
  · rw [max_eq_right (by norm_num)]
    norm_num

/-- Claim C1 as amended: when the vote dict at the exact group size holds
all three categories and a positive total, the raw suggested-player score
is max(0, Best/total + 0.5 Recommended/total): the Not Recommended term
is first added and then subtracted, so Not Recommended votes have no net
effect on the numerator and only enlarge the total. -/
theorem claim_C1 (N : Nat) (g : Game) (sp : List (Nat × List (String × Nat)))
    (sv : List (String × Nat)) (nr b r : Nat)
    (hsp : g.suggested_players = some sp) (hspne : sp ≠ [])
    (hsv : List.lookup N sp = some sv) (hsvne : sv ≠ [])
    (hnr : List.lookup "Not Recommended" sv = some nr)
    (hb : List.lookup "Best" sv = some b)
    (hr : List.lookup "Recommended" sv = some r)
    (ht : sumVotes sv ≠ 0) :
    scoreSuggested N g =
      some (max 0 ((b : ℝ) * 1.0 / (sumVotes sv : ℝ)
        + (r : ℝ) * 0.5 / (sumVotes sv : ℝ)), 0.2) :=
  scoreSuggested_raw N g sp sv nr b r hsp hspne hsv hsvne hnr hb hr ht

/-- Witness for claim C1 at a concrete vote dict (8 Best, 2 Recommended,
10 Not Recommended out of 20). -/
theorem claim_C1_witness :
    scoreSuggested 3
        { game_id := 22,
          suggested_players := some
            [(3, [("Best", 8), ("Recommended", 2), ("Not Recommended", 10)])] } =
      some (max 0 ((8 : ℝ) * 1.0 / ((20 : ℕ) : ℝ)
        + (2 : ℝ) * 0.5 / ((20 : ℕ) : ℝ)), 0.2) :=
  claim_C1 3 _ _ [("Best", 8), ("Recommended", 2), ("Not Recommended", 10)]
    10 8 2 rfl (by decide) (by decide) (by decide) (by decide) (by decide)
    (by decide) (by decide)

/-! ## Claim C9 -/

/-- A game whose vote dict at player count 4 lacks the Recommended and Not
Recommended categories. -/
def gameC9 : Game := { game_id := 23, suggested_players := some [(4, [("Best", 12)])] }

/-- A master state whose only candidate is gameC9, with four guests. -/
def mC9 : Master :=
  { collection := [(23, gameC9)],
    collection_group :=
      [{ username := "o", games_stats := [(23, { owned := true })] }],
    game_group :=
      [{ username := "g1", is_guest := true },
       { username := "g2", is_guest := true },
       { username := "g3", is_guest := true },
       { username := "g4", is_guest := true }] }

/-- Claim C9 evaluated at the failing input: a vote dict for the exact
group size that lacks a category makes the suggested-player computation
raise (modelled none), which aborts the rating of the game and of the
whole run, contradicting the claim that scoring always completes. -/
theorem claim_C9 :
    scoreSuggested 4 gameC9 = none ∧
    rateGame mC9 none none 23 = none ∧
    rateOurGames mC9 none none = none := by
  have h1 : scoreSuggested 4 gameC9 = none := by
    simp [scoreSuggested, gameC9, List.lookup]
  have hN : numberOfPlayers mC9 = 4 := rfl
  have hg : gameOf mC9 23 = some gameC9 := rfl
  have h2 : rateGame mC9 none none 23 = none := by
    simp only [rateGame, hg, hN, h1]
  have hp : possibleCollection mC9 = [23] := by decide
  refine ⟨h1, h2, ?_⟩
  simp only [rateOurGames, hp, evalsList, h2]

/-! ## Claim C10 -/

/-- An owner for the C10 fixture, owning games 1 and 2. -/
def ownerC10 : Player :=
  { username := "o", games_stats := [(1, { owned := true }), (2, { owned := true })] }

/-- C10 fixture: base game 1 with bounds [1, 2]; expansion 2 of it with
player_min 3 and no player_max; two guests at the table.  Both games are
candidates, the graph holds edge 1 -> 2, but the only path has tightened
bracket [3, 2] which excludes the group size, so base 1 has no feasible
path and the re-ranking loop looks up a missing max_scores entry. -/
def mC10 : Master :=
  { collection :=
      [(1, { game_id := 1, player_min := some 1, player_max := some 2 }),
       (2, { game_id := 2, player_min := some 3, is_an_expansion := true,
             expansion_of := [1] })],
    collection_group := [ownerC10],
    game_group :=
      [{ username := "g1", is_guest := true },
       { username := "g2", is_guest := true }] }

/-- Claim C10 evaluated at the failing input: the graph builds fine and
base 1 is a base_to_exp key with an empty feasible-path list, yet the
non-separate-expansions re-ranking aborts (modelled none, a KeyError on
the max_scores dict in the source) instead of ranking the base: the
re-ranking operation is not total. -/
theorem claim_C10 :
    buildExpGraph mC10 (numberOfPlayers mC10) = some ([(1, [])], [2, 1]) ∧
    reRank mC10 [(1, (5 : ℚ)), (2, (7 : ℚ))] none = none := by
  constructor
  · decide
  · decide

/-! ## Claim C5 -/

/-- Claim C5: a non-guest group member with stats for the game but neither
a truthy rating nor the want_to_play flag leaves the player-taste
accumulator pair (score and denominator) unchanged; and when the folded
denominator is 0 the sub-score is the [0.5, 0.4] neutral default. -/
theorem claim_C5 (m : Master) (gid : Nat) (g : Game) :
    (∀ (acc : ℝ × ℝ) (p : Player) (stats : GameStats), p.is_guest = false →
      statLookup p gid = some stats → qTruthy stats.rating = false →
      stats.want_to_play = false → playersStep gid acc p = acc) ∧
    ((m.game_group.foldl (playersStep gid) (psInit g)).2 = 0 →
      playersScorePair m gid g = (0.5, 0.4)) := by
  constructor
  · intro acc p stats h1 h2 h3 h4
    simp only [playersStep, h1, h2, h3, h4, Bool.false_eq_true, if_false]
  · intro h
    have hlt : ¬ (0 : ℝ) < (m.game_group.foldl (playersStep gid) (psInit g)).2 := by
      rw [h]
      exact lt_irrefl 0
    simp only [playersScorePair, hlt, if_false]

/-- A player with stats for game 30 but no rating and no want_to_play. -/
def statsSkip : GameStats := { owned := true, play_count := 3 }

/-- The non-guest member carrying statsSkip. -/
def pSkip : Player := { username := "s", games_stats := [(30, statsSkip)] }

/-- A guest at the C5 fixture table. -/
def guestC5 : Player := { username := "g1", is_guest := true }

/-- A game with no average rating. -/
def gameC5 : Game := { game_id := 30 }

/-- C5 fixture: one guest plus one member with neither rating nor
want_to_play, rating a game without average rating, so the denominator
stays 0. -/
def mC5 : Master :=
  { collection := [(30, gameC5)],
    collection_group := [],
    game_group := [guestC5, pSkip] }

/-- Witness for claim C5 at the concrete fixture: the skipped member
leaves an arbitrary accumulator untouched and the empty denominator
yields the neutral default. -/
theorem claim_C5_witness :
    playersStep 30 (3, 7) pSkip = (3, 7) ∧
    playersScorePair mC5 30 gameC5 = (0.5, 0.4) := by
  have h0 : psInit gameC5 = (0, 0) := by
    simp [psInit, gameC5, qTruthy]
  have h1 : playersStep 30 ((0 : ℝ), (0 : ℝ)) guestC5 = (0, 0) := by
    simp [playersStep, guestC5]
  have h2 : playersStep 30 ((0 : ℝ), (0 : ℝ)) pSkip = (0, 0) :=
    (claim_C5 mC5 30 gameC5).1 (0, 0) pSkip statsSkip rfl rfl rfl rfl
  refine ⟨(claim_C5 mC5 30 gameC5).1 (3, 7) pSkip statsSkip rfl rfl rfl rfl, ?_⟩
  refine (claim_C5 mC5 30 gameC5).2 ?_
  show (List.foldl (playersStep 30) (psInit gameC5) [guestC5, pSkip]).2 = 0
  rw [List.foldl_cons, h0, h1, List.foldl_cons, h2, List.foldl_nil]

/-! ## Claim C2 -/

/-- The seed of a max fold never exceeds the result. -/
lemma le_foldl_max {α : Type} [LinearOrder α] (a : α) (l : List α) :
    a ≤ l.foldl max a := by
  induction l generalizing a with
  | nil => exact le_refl a
  | cons b l ih => exact le_trans (le_max_left a b) (ih (max a b))

/-- Every list element is bounded by the max fold. -/
lemma mem_le_foldl_max {α : Type} [LinearOrder α] {x : α} {l : List α}
    (h : x ∈ l) (a : α) : x ≤ l.foldl max a := by
  induction l generalizing a with
  | nil => cases h
  | cons b l ih =>
    rcases List.mem_cons.mp h with rfl | hx
    · exact le_trans (le_max_right a x) (le_foldl_max _ l)
    · exact ih hx (max a b)

/-- The max fold either returns its seed or one of the list elements. -/
lemma foldl_max_cases {α : Type} [LinearOrder α] (a : α) (l : List α) :
    l.foldl max a = a ∨ l.foldl max a ∈ l := by
  induction l generalizing a with
  | nil => exact Or.inl rfl
  | cons b l ih =>
    rcases ih (max a b) with h | h
    · rw [List.foldl_cons, h]
      rcases max_choice a b with h2 | h2
      · exact Or.inl h2
      · exact Or.inr (by rw [h2]; exact List.mem_cons_self b l)
    · exact Or.inr (List.mem_cons_of_mem b h)

/-- A nested max fold over a list of lists is the max fold of the
flattened list. -/
lemma foldl_foldl_max {α β : Type} [LinearOrder α] (f : β → List α)
    (L : List β) (a : α) :
    L.foldl (fun acc p => (f p).foldl max acc) a = (L.flatMap f).foldl max a := by
  induction L generalizing a with
  | nil => rfl
  | cons p L ih =>
    rw [List.foldl_cons, ih, List.flatMap_cons, List.foldl_append]

/-- displayScore as a single max fold over all scores found on all
feasible paths. -/
lemma displayScore_flat (evals : List (Nat × ℚ)) (base : Nat)
    (exps : List (List Nat)) :
    displayScore evals base exps =
      (exps.flatMap (pathScores evals)).foldl max
        ((List.lookup base evals).getD 0) := by
  unfold displayScore
  exact foldl_foldl_max (pathScores evals) exps _

/-- Claim C2: for a base node of the dependency graph with its own
evaluation and a non-empty feasible-path list, the display score is the
maximum of the base score and of every evaluated score found along the
feasible paths: it bounds the base score and every such path score from
above, and it is attained by one of them. -/
theorem claim_C2 (m : Master) (evals : List (Nat × ℚ))
    (bte : List (Nat × List (List Nat))) (nodes : List Nat)
    (base : Nat) (exps : List (List Nat)) (s : ℚ)
    (hbuild : buildExpGraph m (numberOfPlayers m) = some (bte, nodes))
    (hexp : List.lookup base bte = some exps) (hne : exps ≠ [])
    (hs : List.lookup base evals = some s) :
    s ≤ displayScore evals base exps ∧
    (∀ p ∈ exps, ∀ gid ∈ p, ∀ v, List.lookup gid evals = some v →
      v ≤ displayScore evals base exps) ∧
    (displayScore evals base exps = s ∨
      ∃ p ∈ exps, ∃ gid ∈ p, List.lookup gid evals
        = some (displayScore evals base exps)) := by
  have hflat := displayScore_flat evals base exps
  have hseed : (List.lookup base evals).getD 0 = s := by rw [hs]; rfl
  refine ⟨?_, ?_, ?_⟩
  · rw [hflat, ← hseed]
    exact le_foldl_max _ _
  · intro p hp gid hgid v hv
    rw [hflat]
    refine mem_le_foldl_max ?_ _
    exact List.mem_flatMap.mpr ⟨p, hp, List.mem_filterMap.mpr ⟨gid, hgid, hv⟩⟩
  · rw [hflat, ← hseed]
    rcases foldl_max_cases ((List.lookup base evals).getD 0)
        (exps.flatMap (pathScores evals)) with h | h
    · exact Or.inl h
    · obtain ⟨p, hp, hmem⟩ := List.mem_flatMap.mp h
      obtain ⟨gid, hgid, hv⟩ := List.mem_filterMap.mp hmem
      exact Or.inr ⟨p, hp, gid, hgid, hv⟩

/-- An owner for the chain fixture, owning games 1, 2 and 3. -/
def ownerChain : Player :=
  { username := "o",
    games_stats :=
      [(1, { owned := true }), (2, { owned := true }), (3, { owned := true })] }

/-- Chain fixture: base 1, expansion 2 of 1, expansion 3 of 2, all with
bounds [1, 4]; two guests at the table, so every path is feasible. -/
def mChain : Master :=
  { collection :=
      [(1, { game_id := 1, player_min := some 1, player_max := some 4 }),
       (2, { game_id := 2, player_min := some 1, player_max := some 4,
             is_an_expansion := true, expansion_of := [1] }),
       (3, { game_id := 3, player_min := some 1, player_max := some 4,
             is_an_expansion := true, expansion_of := [2] })],
    collection_group := [ownerChain],
    game_group :=
      [{ username := "g1", is_guest := true },
       { username := "g2", is_guest := true }] }

/-- An evaluation dict for the chain fixture (whole-number scores keep
every step kernel-computable). -/
def evalsChain : List (Nat × ℚ) := [(1, 5), (2, 7), (3, 6)]

/-- Witness for claim C2 at the chain fixture: base 1 evaluates to 5,
its display score bounds it, bounds the path score 7 of expansion 2, and
is attained along a path. -/
theorem claim_C2_witness :
    buildExpGraph mChain (numberOfPlayers mChain)
      = some ([(1, [[1, 2], [1, 2, 3]])], [2, 1, 3]) ∧
    (5 : ℚ) ≤ displayScore evalsChain 1 [[1, 2], [1, 2, 3]] ∧
    (7 : ℚ) ≤ displayScore evalsChain 1 [[1, 2], [1, 2, 3]] := by
  have h := claim_C2 mChain evalsChain [(1, [[1, 2], [1, 2, 3]])] [2, 1, 3]
    1 [[1, 2], [1, 2, 3]] 5 (by decide) (by decide) (by decide) (by decide)
  exact ⟨by decide, h.1,
    h.2.1 [1, 2] (by decide) 2 (by decide) 7 (by decide)⟩

/-! ## Claim C6 infrastructure -/

/-- A key outside the key list of a dict looks up to none. -/
lemma lookup_eq_none_of_not_mem {β : Type} {k : Nat} {l : List (Nat × β)}
    (h : k ∉ l.map Prod.fst) : List.lookup k l = none := by
  induction l with
  | nil => rfl
  | cons p l ih =>
    obtain ⟨a, b⟩ := p
    rw [List.map_cons] at h
    have h1 : k ≠ a := fun he => h (by rw [he]; exact List.mem_cons_self a _)
    have h2 : k ∉ l.map Prod.fst := fun hm => h (List.mem_cons_of_mem _ hm)
    simp only [List.lookup_cons, beq_false_of_ne h1]
    exact ih h2

/-- The key list of a dict after assignment: unchanged when the key was
present, extended by the key otherwise. -/
lemma dictSet_keys (l : List (Nat × ℚ)) (k : Nat) (v : ℚ) :
    (dictSet l k v).map Prod.fst =
      if (l.map Prod.fst).contains k then l.map Prod.fst
      else l.map Prod.fst ++ [k] := by
  unfold dictSet
  split
  · rw [List.map_map]
    refine List.map_congr_left ?_
    intro p hp
    by_cases hk : p.1 = k
    · simp [hk]
    · simp [hk]
  · simp

/-- Assignment preserves key uniqueness. -/
lemma dictSet_nodup (l : List (Nat × ℚ)) (k : Nat) (v : ℚ)
    (h : (l.map Prod.fst).Nodup) : ((dictSet l k v).map Prod.fst).Nodup := by
  rw [dictSet_keys]
  split
  · exact h
  · next hc =>
    have hk : k ∉ l.map Prod.fst := by
      intro hm
      exact hc (by simpa using hm)
    simp [List.nodup_append, h, hk]

/-- After erasing its entry from a duplicate-free dict, a key is gone. -/
lemma eraseP_keys_not_mem (l : List (Nat × ℚ)) (k : Nat)
    (h : (l.map Prod.fst).Nodup) :
    k ∉ (l.eraseP (fun p => p.1 == k)).map Prod.fst := by
  induction l with
  | nil => simp
  | cons p l ih =>
    rw [List.map_cons] at h
    have hh := List.nodup_cons.mp h
    by_cases hk : p.1 = k
    · rw [List.eraseP_cons_of_pos (by simp [hk])]
      rw [← hk]
      exact hh.1
    · rw [List.eraseP_cons_of_neg (by simp [hk])]
      intro hm
      rw [List.map_cons] at hm
      rcases List.mem_cons.mp hm with he | hm2
      · exact hk he.symm
      · exact ih hh.2 hm2

/-- Erasing preserves key uniqueness. -/
lemma eraseP_keys_nodup (l : List (Nat × ℚ)) (q : Nat × ℚ → Bool)
    (h : (l.map Prod.fst).Nodup) : ((l.eraseP q).map Prod.fst).Nodup :=
  h.sublist ((List.eraseP_sublist l).map Prod.fst)

/-- The new_eval loop preserves key uniqueness. -/
lemma newEvalLoop_nodup (bte : List (Nat × List (List Nat)))
    (msc : List (Nat × ℚ)) :
    ∀ (ns : List Nat) (acc res : List (Nat × ℚ)),
      newEvalLoop bte msc ns acc = some res →
      (acc.map Prod.fst).Nodup → (res.map Prod.fst).Nodup := by
  intro ns
  induction ns with
  | nil =>
    intro acc res h hn
    cases h
    exact hn
  | cons n ns ih =>
    intro acc res h hn
    rw [newEvalLoop] at h
    cases hb : List.lookup n bte with
    | some e =>
      rw [hb] at h
      cases hm : List.lookup n msc with
      | some v =>
        rw [hm] at h
        exact ih _ _ h (dictSet_nodup _ _ _ hn)
      | none => rw [hm] at h; cases h
    | none =>
      rw [hb] at h
      cases hp : dictPop acc n with
      | some acc2 =>
        rw [hp] at h
        have : acc2 = acc.eraseP (fun p => p.1 == n) := by
          unfold dictPop at hp
          split at hp
          · exact (Option.some.injEq _ _ ▸ hp).symm
          · cases hp
        exact ih _ _ h (this ▸ eraseP_keys_nodup _ _ hn)
      | none => rw [hp] at h; cases h

/-- A key outside the accumulator that is not a base_to_exp key never
enters the new_eval dict. -/
lemma newEvalLoop_keeps_out (bte : List (Nat × List (List Nat)))
    (msc : List (Nat × ℚ)) (g : Nat) (hg : List.lookup g bte = none) :
    ∀ (ns : List Nat) (acc res : List (Nat × ℚ)),
      newEvalLoop bte msc ns acc = some res →
      g ∉ acc.map Prod.fst → g ∉ res.map Prod.fst := by
  intro ns
  induction ns with
  | nil =>
    intro acc res h ha
    cases h
    exact ha
  | cons n ns ih =>
    intro acc res h ha
    rw [newEvalLoop] at h
    cases hb : List.lookup n bte with
    | some e =>
      rw [hb] at h
      cases hm : List.lookup n msc with
      | some v =>
        rw [hm] at h
        refine ih _ _ h ?_
        rw [dictSet_keys]
        split
        · exact ha
        · intro hmem
          rcases List.mem_append.mp hmem with h1 | h1
          · exact ha h1
          · have : g = n := by simpa using h1
            rw [this] at hg
            rw [hg] at hb
            cases hb
      | none => rw [hm] at h; cases h
    | none =>
      rw [hb] at h
      cases hp : dictPop acc n with
      | some acc2 =>
        rw [hp] at h
        have hacc2 : acc2 = acc.eraseP (fun p => p.1 == n) := by
          unfold dictPop at hp
          split at hp
          · exact (Option.some.injEq _ _ ▸ hp).symm
          · cases hp
        refine ih _ _ h ?_
        rw [hacc2]
        intro hmem
        exact ha (((List.eraseP_sublist acc).map Prod.fst).mem hmem)
      | none => rw [hp] at h; cases h

/-- A graph node that is not a base_to_exp key is popped by the new_eval
loop and never returns: it is absent from the loop result. -/
lemma newEvalLoop_removes (bte : List (Nat × List (List Nat)))
    (msc : List (Nat × ℚ)) (g : Nat) (hg : List.lookup g bte = none) :
    ∀ (ns : List Nat) (acc res : List (Nat × ℚ)),
      newEvalLoop bte msc ns acc = some res →
      (acc.map Prod.fst).Nodup → g ∈ ns → g ∉ res.map Prod.fst := by
  intro ns
  induction ns with
  | nil =>
    intro acc res h hn hmem
    cases hmem
  | cons n ns ih =>
    intro acc res h hn hmem
    rw [newEvalLoop] at h
    rcases List.mem_cons.mp hmem with rfl | hmem2
    · rw [hg] at h
      cases hp : dictPop acc g with
      | some acc2 =>
        rw [hp] at h
        have hacc2 : acc2 = acc.eraseP (fun p => p.1 == g) := by
          unfold dictPop at hp
          split at hp
          · exact (Option.some.injEq _ _ ▸ hp).symm
          · cases hp
        exact newEvalLoop_keeps_out bte msc g hg ns acc2 res h
          (hacc2 ▸ eraseP_keys_not_mem acc g hn)
      | none => rw [hp] at h; cases h
    · cases hb : List.lookup n bte with
      | some e =>
        rw [hb] at h
        cases hm : List.lookup n msc with
        | some v =>
          rw [hm] at h
          exact ih _ _ h (dictSet_nodup _ _ _ hn) hmem2
        | none => rw [hm] at h; cases h
      | none =>
        rw [hb] at h
        cases hp : dictPop acc n with
        | some acc2 =>
          rw [hp] at h
          have hacc2 : acc2 = acc.eraseP (fun p => p.1 == n) := by
            unfold dictPop at hp
            split at hp
            · exact (Option.some.injEq _ _ ▸ hp).symm
            · cases hp
          exact ih _ _ h (hacc2 ▸ eraseP_keys_nodup _ _ hn) hmem2
        | none => rw [hp] at h; cases h

/-- Membership through descending insertion. -/
lemma mem_insertDesc (a x : Nat × ℚ) (l : List (Nat × ℚ)) :
    a ∈ insertDesc x l ↔ a = x ∨ a ∈ l := by
  induction l with
  | nil => simp [insertDesc]
  | cons y ys ih =>
    rw [insertDesc]
    split
    · rw [List.mem_cons, ih, List.mem_cons]
      · tauto
    · rw [List.mem_cons, List.mem_cons]

/-- The descending sort permutes membership only. -/
lemma mem_sortDesc (a : Nat × ℚ) (l : List (Nat × ℚ)) :
    a ∈ sortDesc l ↔ a ∈ l := by
  induction l with
  | nil => simp [sortDesc]
  | cons y ys ih =>
    show a ∈ insertDesc y (sortDesc ys) ↔ _
    rw [mem_insertDesc, ih, List.mem_cons]

/-- Descending insertion preserves the sorted-descending invariant. -/
lemma pairwise_insertDesc (x : Nat × ℚ) (l : List (Nat × ℚ))
    (h : l.Pairwise (fun a b => b.2 ≤ a.2)) :
    (insertDesc x l).Pairwise (fun a b => b.2 ≤ a.2) := by
  induction l with
  | nil => simp [insertDesc]
  | cons y ys ih =>
    have hp := List.pairwise_cons.mp h
    rw [insertDesc]
    split
    · next hle =>
      refine List.pairwise_cons.mpr ⟨?_, ih hp.2⟩
      intro z hz
      rcases (mem_insertDesc z x ys).mp hz with rfl | hz2
      · exact hle
      · exact hp.1 z hz2
    · next hgt =>
      push_neg at hgt
      refine List.pairwise_cons.mpr ⟨?_, h⟩
      intro z hz
      rcases List.mem_cons.mp hz with rfl | hz2
      · exact le_of_lt hgt
      · exact le_trans (hp.1 z hz2) (le_of_lt hgt)

/-- The descending sort is sorted descending by score. -/
lemma pairwise_sortDesc (l : List (Nat × ℚ)) :
    (sortDesc l).Pairwise (fun a b => b.2 ≤ a.2) := by
  induction l with
  | nil => exact List.Pairwise.nil
  | cons y ys ih => exact pairwise_insertDesc y (sortDesc ys) ih

/-- Truncation only drops a suffix. -/
lemma truncate_sublist (limit : Option Nat) (l : List (Nat × ℚ)) :
    (truncate limit l).Sublist l := by
  cases limit with
  | none => exact List.Sublist.refl l
  | some k =>
    by_cases hk : k = 0
    · simp [truncate, hk]
    · simp only [truncate, if_neg hk]
      exact List.take_sublist k l

/-- The base_to_exp dict has exactly the iterated bases as keys. -/
lemma bteLoop_keys (m : Master) (N : Nat) (edges : List (Nat × Nat))
    (nodes : List Nat) :
    ∀ (bs : List Nat) (res : List (Nat × List (List Nat))),
      bteLoop m N edges nodes bs = some res → res.map Prod.fst = bs := by
  intro bs
  induction bs with
  | nil =>
    intro res h
    cases h
    rfl
  | cons b bs ih =>
    intro res h
    rw [bteLoop] at h
    cases he : baseToExpEntry m N edges nodes b with
    | some e =>
      rw [he] at h
      cases hr : bteLoop m N edges nodes bs with
      | some rest =>
        rw [hr] at h
        cases h
        rw [List.map_cons, ih rest hr]
      | none => rw [hr] at h; cases h
    | none => rw [he] at h; cases h

/-- A successful buildExpGraph returns the graphData nodes and a
base_to_exp dict keyed by the isBase nodes. -/
lemma buildExpGraph_elim (m : Master) (N : Nat)
    (bte : List (Nat × List (List Nat))) (nodes : List Nat)
    (h : buildExpGraph m N = some (bte, nodes)) :
    nodes = (graphData m).1 ∧
    bte.map Prod.fst = (graphData m).1.filter (nodeIsBase m) := by
  simp only [buildExpGraph] at h
  cases hb : bteLoop m N (graphData m).2 (graphData m).1
      ((graphData m).1.filter (nodeIsBase m)) with
  | some bte2 =>
    rw [hb] at h
    cases h
    exact ⟨rfl, bteLoop_keys m N _ _ _ _ hb⟩
  | none => rw [hb] at h; cases h

/-- Claim C6 counterexample: in the chain fixture, expansion 2 is itself
the base of expansion 3 (a mid-chain node), yet the non-separate
re-ranking removes it from the top-level list: the result is just the
root base 1 with its display score 7. -/
theorem claim_C6_counterexample :
    reRank mChain evalsChain none = some [(1, 7)] ∧
    List.lookup 2 [((1 : Nat), (7 : ℚ))] = none := by
  constructor
  · decide
  · decide

/-- Claim C6 as amended: in non-separate-expansions mode every graph node
carrying is_an_expansion (isBase false) is removed from the top-level
ranked list, including mid-chain nodes that are themselves base of
another expansion; the remaining entries are ordered by display score
descending and truncated to the result limit when a non-zero one is
given. -/
theorem claim_C6 (m : Master) (evals : List (Nat × ℚ)) (limit : Option Nat)
    (res : List (Nat × ℚ))
    (hnd : (evals.map Prod.fst).Nodup)
    (h : reRank m evals limit = some res) :
    (∀ n ∈ (graphData m).1, nodeIsBase m n = false → ∀ v : ℚ, (n, v) ∉ res) ∧
    res.Pairwise (fun a b => b.2 ≤ a.2) ∧
    (∀ k, limit = some k → k ≠ 0 → res.length ≤ k) := by
  unfold reRank at h
  cases hb : buildExpGraph m (numberOfPlayers m) with
  | none => rw [hb] at h; cases h
  | some pair =>
    obtain ⟨bte, nodes⟩ := pair
    rw [hb] at h
    dsimp only [] at h
    cases hn : newEvalLoop bte (maxScores evals bte) nodes evals with
    | none => rw [hn] at h; cases h
    | some ne =>
      rw [hn] at h
      cases h
      obtain ⟨hnodes, hkeys⟩ := buildExpGraph_elim m (numberOfPlayers m) bte nodes hb
      refine ⟨?_, ?_, ?_⟩
      · intro n hmem hbase v hres
        have hbte : List.lookup n bte = none := by
          refine lookup_eq_none_of_not_mem ?_
          rw [hkeys]
          intro hn2
          have := (List.mem_filter.mp hn2).2
          rw [hbase] at this
          cases this
        have hout : n ∉ ne.map Prod.fst := by
          refine newEvalLoop_removes bte (maxScores evals bte) n hbte
            nodes evals ne hn hnd ?_
          rw [hnodes]
          exact hmem
        have h1 : (n, v) ∈ sortDesc ne :=
          (truncate_sublist limit (sortDesc ne)).mem hres
        have h2 : (n, v) ∈ ne := (mem_sortDesc _ ne).mp h1
        exact hout (List.mem_map_of_mem Prod.fst h2)
      · exact List.Pairwise.sublist (truncate_sublist limit (sortDesc ne))
          (pairwise_sortDesc ne)
      · intro k hk hk0
        rw [hk]
        rw [show truncate (some k) (sortDesc ne)
          = if k = 0 then sortDesc ne else (sortDesc ne).take k from rfl]
        rw [if_neg hk0]
        exact List.length_take_le k (sortDesc ne)

/-- Witness for claim C6 at the chain fixture: the surviving list is
sorted descending and within the (absent) limit. -/
theorem claim_C6_witness :
    (∀ v : ℚ, (2, v) ∉ ([(1, 7)] : List (Nat × ℚ))) ∧
    ([((1 : Nat), (7 : ℚ))] : List (Nat × ℚ)).Pairwise (fun a b => b.2 ≤ a.2) := by
  have h := claim_C6 mChain evalsChain none [(1, 7)] (by decide) (by decide)
  exact ⟨fun v => h.1 2 (by decide) (by decide) v, h.2.1⟩

/-! ## Claim C8 -/

/-- standardize clamps into the unit interval. -/
lemma standardize_bounds (x : ℝ) : 0 ≤ standardize x ∧ standardize x ≤ 1 := by
  unfold standardize
  refine ⟨le_max_left 0 _, ?_⟩
  exact max_le (by norm_num) (min_le_left 1 _)

/-- standardize lands on the grid of integer multiples of 1/10000 between
0 and 1. -/
lemma standardize_grid (x : ℝ) :
    ∃ k : ℤ, 0 ≤ k ∧ k ≤ 10000 ∧ standardize x = (k : ℝ) / 10000 := by
  unfold standardize pyRound4
  set n : ℤ := roundHalfEven (x * 10000) with hn
  refine ⟨max 0 (min 10000 n), le_max_left 0 _, ?_, ?_⟩
  · exact max_le (by norm_num) (le_trans (min_le_left 10000 n) (le_refl _))
  · rcases le_or_lt (n : ℝ) 0 with h0 | h0
    · have hmin : min 1 ((n : ℝ) / 10000) = (n : ℝ) / 10000 :=
        min_eq_right (by nlinarith)
      have hmax : max (0 : ℝ) ((n : ℝ) / 10000) = 0 :=
        max_eq_left (by nlinarith)
      have hz : (n : ℤ) ≤ 0 := by exact_mod_cast h0
      have : max (0 : ℤ) (min 10000 n) = 0 :=
        max_eq_left (le_trans (min_le_right 10000 n) hz)
      rw [hmin, hmax, this]
      norm_num
    · rcases le_or_lt (n : ℝ) 10000 with h1 | h1
      · have hmin : min 1 ((n : ℝ) / 10000) = (n : ℝ) / 10000 :=
          min_eq_right (by nlinarith)
        have hmax : max (0 : ℝ) ((n : ℝ) / 10000) = (n : ℝ) / 10000 :=
          max_eq_right (by nlinarith)
        have hz0 : (0 : ℤ) ≤ n := by exact_mod_cast le_of_lt h0
        have hz1 : n ≤ 10000 := by exact_mod_cast h1
        have : max (0 : ℤ) (min 10000 n) = n := by
          rw [min_eq_right hz1]
          exact max_eq_right hz0
        rw [hmin, hmax, this]
      · have hmin : min 1 ((n : ℝ) / 10000) = 1 :=
          min_eq_left (by nlinarith)
        have hmax : max (0 : ℝ) (1 : ℝ) = 1 := max_eq_right (by norm_num)
        have hz1 : (10000 : ℤ) ≤ n := by exact_mod_cast le_of_lt h1
        have : max (0 : ℤ) (min 10000 n) = 10000 := by
          rw [min_eq_left hz1]
          norm_num
        rw [hmin, hmax, this]
        norm_num

/-- A successfully rated game ends up either standardized or exactly 0. -/
lemma rateGame_cases (m : Master) (t : Option Nat) (w : Option ℚ) (gid : Nat)
    (s : ℝ) (h : rateGame m t w gid = some s) :
    (∃ y : ℝ, s = standardize y) ∨ s = 0 := by
  unfold rateGame at h
  cases hg : gameOf m gid with
  | none => rw [hg] at h; cases h
  | some g =>
    rw [hg] at h
    dsimp only [] at h
    cases hs : scoreSuggested (numberOfPlayers m) g with
    | none => rw [hs] at h; cases h
    | some sv =>
      rw [hs] at h
      dsimp only [] at h
      split at h
      · exact Or.inl ⟨_, (Option.some.injEq _ _ ▸ h).symm⟩
      · exact Or.inr (Option.some.injEq _ _ ▸ h).symm

/-- Every entry of a successfully built evaluation list is the result of
rating its game. -/
lemma evalsList_mem (m : Master) (t : Option Nat) (w : Option ℚ) :
    ∀ (l : List Nat) (evals : List (Nat × ℝ)),
      evalsList m t w l = some evals →
      ∀ p ∈ evals, rateGame m t w p.1 = some p.2 := by
  intro l
  induction l with
  | nil =>
    intro evals h p hp
    cases h
    cases hp
  | cons gid rest ih =>
    intro evals h p hp
    rw [evalsList] at h
    cases hr : rateGame m t w gid with
    | none => rw [hr] at h; cases h
    | some s =>
      rw [hr] at h
      cases he : evalsList m t w rest with
      | none => rw [he] at h; cases h
      | some l2 =>
        rw [he] at h
        cases h
        rcases List.mem_cons.mp hp with rfl | hp2
        · exact hr
        · exact ih l2 he p hp2

/-- Claim C8: standardize always lands in [0, 1] on the 4-decimal grid,
and consequently every final per-game score stored in a successfully
built evaluation map lies in [0, 1]. -/
theorem claim_C8 :
    (∀ x : ℝ, (0 ≤ standardize x ∧ standardize x ≤ 1) ∧
      ∃ k : ℤ, 0 ≤ k ∧ k ≤ 10000 ∧ standardize x = (k : ℝ) / 10000) ∧
    (∀ (m : Master) (t : Option Nat) (w : Option ℚ) (evals : List (Nat × ℝ)),
      rateOurGames m t w = some evals →
      ∀ p ∈ evals, 0 ≤ p.2 ∧ p.2 ≤ 1) := by
  refine ⟨fun x => ⟨standardize_bounds x, standardize_grid x⟩, ?_⟩
  intro m t w evals h p hp
  have hr := evalsList_mem m t w (possibleCollection m) evals h p hp
  rcases rateGame_cases m t w p.1 p.2 hr with ⟨y, hy⟩ | hy
  · rw [hy]
    exact standardize_bounds y
  · rw [hy]
    norm_num

/-- Vote data for the C8 fixture: 5 Best, 0 Recommended, 5 Not Recommended. -/
def votesC8 : List (String × Nat) :=
  [("Best", 5), ("Recommended", 0), ("Not Recommended", 5)]

/-- The C8 fixture game: only suggested-player data, at player count 1. -/
def gameC8 : Game := { game_id := 7, suggested_players := some [(1, votesC8)] }

/-- The single guest of the C8 fixture. -/
def guestC8 : Player := { username := "g", is_guest := true }

/-- C8 fixture: one owned game, one guest, no targets, chosen so the
final score is exactly 0.5 and every step evaluates in closed form. -/
def mC8 : Master :=
  { collection := [(7, gameC8)],
    collection_group :=
      [{ username := "o", games_stats := [(7, { owned := true })] }],
    game_group := [guestC8] }

/-- Rounding an integer is the identity. -/
lemma roundHalfEven_intCast (n : ℤ) : roundHalfEven ((n : ℝ)) = n := by
  simp [roundHalfEven, Int.fract_intCast, Int.floor_intCast]

/-- standardize fixes 0.5. -/
lemma standardize_half : standardize 0.5 = 0.5 := by
  unfold standardize pyRound4
  rw [show ((0.5 : ℝ) * 10000) = ((5000 : ℤ) : ℝ) by norm_num]
  rw [roundHalfEven_intCast]
  norm_num

/-- The C8 fixture suggested-player sub-score evaluates to [0.5, 0.2]. -/
lemma hsuggC8 : scoreSuggested 1 gameC8 = some (0.5, 0.2) := by
  have h := scoreSuggested_raw 1 gameC8 [(1, votesC8)] votesC8 5 5 0
    rfl (by decide) rfl (by decide) rfl rfl rfl (by decide)
  rw [show sumVotes votesC8 = 10 from rfl] at h
  rw [h]
  have : max (0 : ℝ) (((5 : ℕ) : ℝ) * 1.0 / ((10 : ℕ) : ℝ)
      + ((0 : ℕ) : ℝ) * 0.5 / ((10 : ℕ) : ℝ)) = 0.5 := by
    rw [max_eq_right] <;> norm_num
  rw [this]

/-- The C8 fixture playing-time sub-score evaluates to [0, 0]. -/
lemma hptC8 : scorePlayingTime none none gameC8 = (0, 0) := by
  simp [scorePlayingTime, qTruthy]

/-- The C8 fixture weight sub-score evaluates to [0, 0]. -/
lemma hwtC8 : scoreWeight none gameC8 = (0, 0) := by
  simp [scoreWeight, qTruthy]

/-- The C8 fixture player-taste sub-score evaluates to the default. -/
lemma hpsC8 : playersScorePair mC8 7 gameC8 = (0.5, 0.4) := by
  have h0 : psInit gameC8 = (0, 0) := by simp [psInit, gameC8, qTruthy]
  have h1 : playersStep 7 ((0 : ℝ), (0 : ℝ)) guestC8 = (0, 0) := by
    simp [playersStep, guestC8]
  have hacc : mC8.game_group.foldl (playersStep 7) (psInit gameC8) = (0, 0) := by
    rw [show mC8.game_group = [guestC8] from rfl, List.foldl_cons, h0, h1,
      List.foldl_nil]
  simp only [playersScorePair, hacc]
  norm_num

/-- The C8 fixture game rates to exactly 0.5. -/
lemma hrateC8 : rateGame mC8 none none 7 = some 0.5 := by
  have hg : gameOf mC8 7 = some gameC8 := rfl
  have hN : numberOfPlayers mC8 = 1 := rfl
  simp only [rateGame, hg, hN, hsuggC8, hptC8, hwtC8, hpsC8]
  rw [if_pos (by norm_num : (0 : ℝ) < 0 + 0 + 0.2 + 0.4)]
  rw [show ((0 : ℝ) * 0 + 0 * 0 + 0.5 * 0.2 + 0.5 * 0.4) / (0 + 0 + 0.2 + 0.4)
    = (0.5 : ℝ) by norm_num]
  rw [standardize_half]

/-- The C8 fixture evaluation map evaluates in closed form. -/
lemma hevC8 : rateOurGames mC8 none none = some [(7, 0.5)] := by
  have hp : possibleCollection mC8 = [7] := by decide
  simp only [rateOurGames, hp, evalsList, hrateC8]

/-- Witness for claim C8 at the concrete fixture: the evaluation map
builds and its only score lies in the unit interval. -/
theorem claim_C8_witness :
    rateOurGames mC8 none none = some [(7, 0.5)] ∧
    (0 : ℝ) ≤ 0.5 ∧ (0.5 : ℝ) ≤ 1 := by
  refine ⟨hevC8, ?_⟩
  exact claim_C8.2 mC8 none none [(7, 0.5)] hevC8 (7, 0.5)
    (List.mem_singleton.mpr rfl)

end BGS
